import Mathlib

/-!
Verification of the `ethvault/iframe-provider` request/response correlation
engine (`src/index.ts`).

The source file concatenates two versions of the `IFrameEthereumProvider`
class: the first at lines 1-323 ("V1") and the second at lines 325-597
("V2").  Both are embedded below as explicit state machines:

* a provider state holds the pending-call table (`completers`, an object
  keyed by stringified call identifier), the multiset of armed timers, the
  outbound envelopes handed to `window.parent.postMessage`, and the events
  emitted through the `eventemitter3` base class;
* three kinds of externally scheduled events drive the machine: a caller
  invoking `send`/`execute` (`Event.issue`, carrying the value of the
  `isEmbeddedInIFrame()` predicate at call time and the string returned by
  `getUniqueId()`), the transport surfacing an inbound message
  (`Event.recv`), and a `setTimeout` callback expiring (`Event.fire`).

JavaScript run-to-completion semantics make each handler body atomic, so
each event is one step.  The `log` component records, per caller invocation
(numbered in order), the outcome the awaiting caller observes from `send`:
for V1 the completer resolves with the whole response message and `send`
translates it (`throw new RpcError(...)` on an `error` member — a
`TypeError` instead when the present `error` value is null/undefined —
otherwise the `result` member); for V2 the handler itself rejects with a
plain `Error` built from `error.message` or resolves with `result`, and
THROWS while building that `Error` when the present `error` value is
null/undefined, before the reject and the delete.  Handlers can also throw
while indexing a null/undefined `params` in the method switch; each
handler's thrown flag is part of its result.
-/

namespace IFrameProvider

/-- JSON-ish values exchanged on the channel.  `vUndefined` stands for the
JavaScript `undefined` produced by reading an absent property or an
out-of-range array index. -/
inductive JsonValue where
  | vUndefined : JsonValue
  | vNull : JsonValue
  | vBool : Bool → JsonValue
  | vNum : Int → JsonValue
  | vStr : String → JsonValue
  | vArr : List JsonValue → JsonValue

mutual

def jsonDecEq : (a b : JsonValue) → Decidable (a = b)
  | .vUndefined, .vUndefined => isTrue rfl
  | .vNull, .vNull => isTrue rfl
  | .vBool x, .vBool y =>
    if h : x = y then isTrue (by rw [h]) else
      isFalse (by intro hh; injection hh with h2; exact h h2)
  | .vNum x, .vNum y =>
    if h : x = y then isTrue (by rw [h]) else
      isFalse (by intro hh; injection hh with h2; exact h h2)
  | .vStr x, .vStr y =>
    if h : x = y then isTrue (by rw [h]) else
      isFalse (by intro hh; injection hh with h2; exact h h2)
  | .vArr xs, .vArr ys =>
    match jsonDecEqList xs ys with
    | isTrue h => isTrue (by rw [h])
    | isFalse h => isFalse (by intro hh; injection hh with h2; exact h h2)
  | .vUndefined, .vNull => isFalse (fun h => nomatch h)
  | .vUndefined, .vBool _ => isFalse (fun h => nomatch h)
  | .vUndefined, .vNum _ => isFalse (fun h => nomatch h)
  | .vUndefined, .vStr _ => isFalse (fun h => nomatch h)
  | .vUndefined, .vArr _ => isFalse (fun h => nomatch h)
  | .vNull, .vUndefined => isFalse (fun h => nomatch h)
  | .vNull, .vBool _ => isFalse (fun h => nomatch h)
  | .vNull, .vNum _ => isFalse (fun h => nomatch h)
  | .vNull, .vStr _ => isFalse (fun h => nomatch h)
  | .vNull, .vArr _ => isFalse (fun h => nomatch h)
  | .vBool _, .vUndefined => isFalse (fun h => nomatch h)
  | .vBool _, .vNull => isFalse (fun h => nomatch h)
  | .vBool _, .vNum _ => isFalse (fun h => nomatch h)
  | .vBool _, .vStr _ => isFalse (fun h => nomatch h)
  | .vBool _, .vArr _ => isFalse (fun h => nomatch h)
  | .vNum _, .vUndefined => isFalse (fun h => nomatch h)
  | .vNum _, .vNull => isFalse (fun h => nomatch h)
  | .vNum _, .vBool _ => isFalse (fun h => nomatch h)
  | .vNum _, .vStr _ => isFalse (fun h => nomatch h)
  | .vNum _, .vArr _ => isFalse (fun h => nomatch h)
  | .vStr _, .vUndefined => isFalse (fun h => nomatch h)
  | .vStr _, .vNull => isFalse (fun h => nomatch h)
  | .vStr _, .vBool _ => isFalse (fun h => nomatch h)
  | .vStr _, .vNum _ => isFalse (fun h => nomatch h)
  | .vStr _, .vArr _ => isFalse (fun h => nomatch h)
  | .vArr _, .vUndefined => isFalse (fun h => nomatch h)
  | .vArr _, .vNull => isFalse (fun h => nomatch h)
  | .vArr _, .vBool _ => isFalse (fun h => nomatch h)
  | .vArr _, .vNum _ => isFalse (fun h => nomatch h)
  | .vArr _, .vStr _ => isFalse (fun h => nomatch h)

def jsonDecEqList : (a b : List JsonValue) → Decidable (a = b)
  | [], [] => isTrue rfl
  | [], _ :: _ => isFalse (fun h => nomatch h)
  | _ :: _, [] => isFalse (fun h => nomatch h)
  | x :: xs, y :: ys =>
    match jsonDecEq x y, jsonDecEqList xs ys with
    | isTrue h1, isTrue h2 => isTrue (by rw [h1, h2])
    | isFalse h1, _ => isFalse (by intro hh; injection hh with a b; exact h1 a)
    | isTrue _, isFalse h2 => isFalse (by intro hh; injection hh with a b; exact h2 b)

end

instance : DecidableEq JsonValue := jsonDecEq

/-- The `id` property of an inbound message: absent (`undefined`), `null`,
a JSON number, or a string (`type MessageId = number | string | null`, with
the property optional in requests). -/
inductive IdField where
  | undef : IdField
  | null : IdField
  | num : Int → IdField
  | str : String → IdField
  deriving DecidableEq

/-- The value of an `error` member of a response message, when it is an
object.  V1 declares it as `{code, reason, data?}` and reads
`.code`/`.reason`; V2 declares it as `{code, message, data?}` and reads
`.code`/`.message`.  Both human-readable property names are carried as
optional so that either version's read of an absent property yields
`undefined` faithfully.  The `data` member is never read by the code and is
omitted. -/
structure ErrObj where
  code : Int
  reason : Option String
  message : Option String
  deriving DecidableEq

/-- The `error` property of an inbound message: absent (`'error' in message`
is false), present but `null`/`undefined` (property reads on it throw a
`TypeError`), or a present error object (property reads succeed, yielding
`undefined` for missing members). -/
inductive ErrField where
  | absent : ErrField
  | nullish : ErrField
  | obj : ErrObj → ErrField
  deriving DecidableEq

/-- Presence test `'error' in message` (true also for a null value). -/
def errPresent : ErrField → Bool
  | .absent => false
  | .nullish => true
  | .obj _ => true

/-- Values on which a JavaScript member access or index expression throws a
`TypeError`: `null` and `undefined`. -/
def jsNullish : JsonValue → Bool
  | .vUndefined => true
  | .vNull => true
  | _ => false

/-- Member access `v[i]` on a non-nullish value: array element (or
`undefined` past the end), single-character string for string indexing (or
`undefined` past the end), `undefined` on other primitives. -/
def elemAt : JsonValue → Nat → JsonValue
  | .vArr l, i => l.getD i .vUndefined
  | .vStr s, i =>
    match s.data.get? i with
    | some ch => .vStr (String.mk [ch])
    | none => .vUndefined
  | _, _ => .vUndefined

/-- JavaScript index expression `v[i]`: `none` models the thrown
`TypeError` when `v` is `null` or `undefined`, otherwise the member. -/
def indexJs (v : JsonValue) (i : Nat) : Option JsonValue :=
  if jsNullish v then none else some (elemAt v i)

/-- An inbound `message` event payload as far as the handlers inspect it:
`!data` truthiness, the `jsonrpc` property, the `id` property, presence and
value of `result` (`'result' in message`), the `error` property (absent,
nullish, or object), the `method` property and the `params` property (an
arbitrary value; `vUndefined` models an absent property, `vNull` a null
one). -/
structure RawMsg where
  falsy : Bool := false
  jsonrpc : Option String := none
  id : IdField := .undef
  result : Option JsonValue := none
  error : ErrField := .absent
  method : Option String := none
  params : JsonValue := .vUndefined
  deriving DecidableEq

/-- Error values surfaced to a caller: V1's `RpcError` subclass (observable
`code` and `reason` properties; `reason` is `undefined` — here `none` — when
the wire error object lacks a `reason` property), a plain `Error` with its
`message` string (`new Error(undefined)` has message `""`), or a runtime
`TypeError` (raised in V1's `send` when it reads `response.error.code` on a
nullish `error` value; its host-generated message text is not modeled). -/
inductive ErrVal where
  | rpcError : Int → Option String → ErrVal
  | plainError : String → ErrVal
  | typeError : ErrVal
  deriving DecidableEq

/-- The outcome a caller awaiting `send` observes for one call. -/
inductive Outcome where
  | success : JsonValue → Outcome
  | failure : ErrVal → Outcome
  deriving DecidableEq

/-- Events emitted through the `eventemitter3` base class by the
`emitNotification`/`emitConnect`/... helpers.  `notifyEvent` carries the raw
`message.params` value. -/
inductive EmitEvent where
  | notifyEvent : JsonValue → EmitEvent
  | connectEvent : EmitEvent
  | closeEvent : JsonValue → JsonValue → EmitEvent
  | chainChangedEvent : JsonValue → EmitEvent
  | networkChangedEvent : JsonValue → EmitEvent
  | accountsChangedEvent : JsonValue → EmitEvent
  deriving DecidableEq

/-- The outbound request envelope built by `execute` (V1) / `send` (V2):
`{jsonrpc: JSON_RPC_VERSION, id, method, params}`. -/
structure Payload where
  jsonrpc : String
  id : String
  method : String
  params : Option (List JsonValue)
  deriving DecidableEq

/-- The JSON object the envelope serializes to, as ordered (field name,
value) pairs; the property names are exactly the TypeScript object literal's
property names. -/
def Payload.fields (p : Payload) : List (String × JsonValue) :=
  [("jsonrpc", .vStr p.jsonrpc), ("id", .vStr p.id), ("method", .vStr p.method),
   ("params", match p.params with | none => .vUndefined | some l => .vArr l)]

/-- Provider instance state.  `completers` is the pending-call table (an
object keyed by string), holding for each key the index of the caller
invocation whose promise callbacks it stores.  `timers` is the multiset of
armed, not-yet-fired timeout callbacks (each holding the captured `id`).
`nextCall` numbers caller invocations of `send`/`execute`.  `log` records
the caller-visible completion of each invocation, in completion order.
`sent` records the envelopes handed to `postMessage`, `events` the emitted
events. -/
structure PState where
  completers : List (String × Nat)
  timers : List String
  nextCall : Nat
  log : List (Nat × Outcome)
  sent : List Payload
  events : List EmitEvent
  deriving DecidableEq

def initState : PState := ⟨[], [], 0, [], [], []⟩

/-- Lookup `this.completers['' + id]`. -/
def tblLookup (id : String) : List (String × Nat) → Option Nat
  | [] => none
  | (k, v) :: rest => if k = id then some v else tblLookup id rest

/-- Deletion `delete this.completers[id]`. -/
def tblDelete (id : String) (t : List (String × Nat)) : List (String × Nat) :=
  t.filter (fun p => p.1 ≠ id)

/-- Registration `this.completers[id] = (resolve, reject)` (assignment overwrites any
previous binding of the same key). -/
def tblInsert (id : String) (c : Nat) (t : List (String × Nat)) : List (String × Nat) :=
  (id, c) :: tblDelete id t

/-- Check `typeof message.id !== 'undefined' && message.id !== null`. -/
def idPresent : IdField → Bool
  | .undef => false
  | .null => false
  | .num _ => true
  | .str _ => true

/-- JavaScript string coercion `'' + message.id` for a present identifier
(also the property-key coercion performed by `this.completers[message.id]`).
-/
def coerceId : IdField → String
  | .undef => "undefined"
  | .null => "null"
  | .num n => toString n
  | .str s => s

/-- Error `'Not embedded within an iframe.'` thrown by both versions when
`isEmbeddedInIFrame()` is false. -/
def notEmbeddedErr : ErrVal := .plainError "Not embedded within an iframe."

/-- V1 timeout rejection message:
`` `RPC ID "${id}" timed out after ${this.timeoutMilliseconds} milliseconds` ``. -/
def timeoutMsgV1 (id : String) (t : Nat) : String :=
  "RPC ID \"" ++ id ++ "\" timed out after " ++ toString t ++ " milliseconds"

/-- V2 timeout rejection message (no quotes around the identifier):
`` `RPC ID ${id} timed out after ${this.timeoutMilliseconds} milliseconds` ``. -/
def timeoutMsgV2 (id : String) (t : Nat) : String :=
  "RPC ID " ++ id ++ " timed out after " ++ toString t ++ " milliseconds"

/-- Externally scheduled events driving one provider instance.  `issue`
models a caller invoking `send` (V2) / `send`-via-`execute` (V1): `embedded`
is the value of `isEmbeddedInIFrame()` at that moment and `id` the string
returned by `getUniqueId()` (an adversarial oracle: the code draws it from
`Math.random` with no collision check).  `recv` models the `message` event
listener running on an inbound payload; `fire` models the `setTimeout`
callback armed with the given captured `id` expiring. -/
inductive Event where
  | issue : Bool → String → String → Option (List JsonValue) → Event
  | recv : RawMsg → Event
  | fire : String → Event
  deriving DecidableEq

/-- The ids of the calls actually issued while embedded (those that register
a completer and arm a timer). -/
def issueIds : List Event → List String
  | [] => []
  | .issue true id _ _ :: rest => id :: issueIds rest
  | _ :: rest => issueIds rest

/-- Caller invocation of `send`/`execute`, identical in both versions up to
the resolve-value convention (which only shows in `log` later): check
`isEmbeddedInIFrame()` and throw synchronously if false (the async function
rejects its promise: logged immediately); otherwise build the envelope,
register the completer (overwriting any same-key binding), `postMessage` the
envelope, and arm the timeout. -/
def issueStep (s : PState) (embedded : Bool) (id mtd : String)
    (params : Option (List JsonValue)) : PState :=
  if embedded then
    { s with
        completers := tblInsert id s.nextCall s.completers
        sent := s.sent ++ [⟨"2.0", id, mtd, params⟩]
        timers := s.timers ++ [id]
        nextCall := s.nextCall + 1 }
  else
    { s with
        log := s.log ++ [(s.nextCall, .failure notEmbeddedErr)]
        nextCall := s.nextCall + 1 }

/-- V1 `setTimeout` callback: if `this.completers[id]` is still present,
reject it with the timeout `Error` and delete it; otherwise no-op.  Firing
consumes the armed timer. -/
def fireV1 (cfg : Nat) (s : PState) (id : String) : PState :=
  let s1 := { s with timers := s.timers.erase id }
  match tblLookup id s1.completers with
  | some c =>
    { s1 with
        log := s1.log ++ [(c, .failure (.plainError (timeoutMsgV1 id cfg)))]
        completers := tblDelete id s1.completers }
  | none => s1

/-- V2 `setTimeout` callback (same logic, V2's message string). -/
def fireV2 (cfg : Nat) (s : PState) (id : String) : PState :=
  let s1 := { s with timers := s.timers.erase id }
  match tblLookup id s1.completers with
  | some c =>
    { s1 with
        log := s1.log ++ [(c, .failure (.plainError (timeoutMsgV2 id cfg)))]
        completers := tblDelete id s1.completers }
  | none => s1

/-- The caller-visible outcome V1's `send` derives from the response message
its completer was resolved with: `if ('error' in response) throw new
RpcError(response.error.code, response.error.reason); else return
response.result`.  When the present `error` value is nullish, evaluating
`response.error.code` inside `send` throws a `TypeError`, which the async
function delivers to the caller as the rejection value. -/
def outcomeV1 (m : RawMsg) : Outcome :=
  match m.error with
  | .obj e => .failure (.rpcError e.code e.reason)
  | .nullish => .failure .typeError
  | .absent => .success (match m.result with | some v => v | none => .vUndefined)

/-- V1 response-matching step (lines 255-268): if the message has a present,
non-null id bound in the table, resolve the completer when the message has
an `error` or `result` member, and in every found case delete the entry
(the `delete` sits outside the `'error' in message || 'result' in message`
guard). -/
def respondV1 (s : PState) (m : RawMsg) : PState :=
  if idPresent m.id then
    match tblLookup (coerceId m.id) s.completers with
    | some c =>
      let s1 :=
        if errPresent m.error || m.result.isSome then
          { s with log := s.log ++ [(c, outcomeV1 m)] }
        else s
      { s1 with completers := tblDelete (coerceId m.id) s1.completers }
    | none => s
  else s

/-- V2 response-matching step (lines 526-542) together with whether it
threw: `if ('error' in message)` build `new Error(message.error.message)` —
which throws a `TypeError` when the present `error` value is nullish,
BEFORE the reject and before the `delete`, leaving the entry in the table —
then reject; `else if ('result' in message)` resolve with `message.result`;
the `delete` is outside the branch but after the potential throw. -/
def respondV2 (s : PState) (m : RawMsg) : PState × Bool :=
  if idPresent m.id then
    match tblLookup (coerceId m.id) s.completers with
    | some c =>
      match m.error with
      | .nullish => (s, true)
      | .obj e =>
        let s1 :=
          { s with log := s.log ++ [(c, Outcome.failure (ErrVal.plainError (e.message.getD "")))] }
        ({ s1 with completers := tblDelete (coerceId m.id) s1.completers }, false)
      | .absent =>
        match m.result with
        | some v =>
          let s1 := { s with log := s.log ++ [(c, Outcome.success v)] }
          ({ s1 with completers := tblDelete (coerceId m.id) s1.completers }, false)
        | none =>
          ({ s with completers := tblDelete (coerceId m.id) s.completers }, false)
    | none => (s, false)
  else (s, false)

/-- V1 value passed to `emitNotification`: the raw `message.params`,
whatever value it is (no member access, so no throw). -/
def notifyPayload (m : RawMsg) : JsonValue := m.params

/-- The `switch (message.method)` dispatch (identical text in both
versions): the events it emits, paired with whether it throws.  The
`close`/`chainChanged`/`networkChanged`/`accountsChanged` arms evaluate
`message.params[0]` (and `[1]` for close), which raises a `TypeError`
before any emit when `message.params` is `undefined` or `null`. -/
def dispatchResult (m : RawMsg) : List EmitEvent × Bool :=
  match m.method with
  | none => ([], false)
  | some name =>
    if name = "notification" then
      ([.notifyEvent (notifyPayload m)], false)
    else if name = "connect" then
      ([.connectEvent], false)
    else if name = "close" then
      match indexJs m.params 0, indexJs m.params 1 with
      | some a, some b => ([.closeEvent a b], false)
      | _, _ => ([], true)
    else if name = "chainChanged" then
      match indexJs m.params 0 with
      | some a => ([.chainChangedEvent a], false)
      | none => ([], true)
    else if name = "networkChanged" then
      match indexJs m.params 0 with
      | some a => ([.networkChangedEvent a], false)
      | none => ([], true)
    else if name = "accountsChanged" then
      match indexJs m.params 0 with
      | some a => ([.accountsChangedEvent a], false)
      | none => ([], true)
    else ([], false)

/-- V1 `handleParentWindowMessage` on one inbound payload: returns the
post-handler state together with whether the handler body threw.  `if
(!data) return`, then `if (message.jsonrpc !== '2.0') return`, then the
response-matching step, then the method switch. -/
def handleV1 (s : PState) (m : RawMsg) : PState × Bool :=
  if m.falsy then (s, false)
  else if m.jsonrpc ≠ some "2.0" then (s, false)
  else
    let s1 := respondV1 s m
    let d := dispatchResult m
    ({ s1 with events := s1.events ++ d.1 }, d.2)

/-- V2 `handleJsonrpcMessage`, same outer structure around `respondV2`.
When the response-matching step throws (nullish `error` on a matched
entry), the exception propagates out of the handler and the method switch
is never reached: no event is emitted and the state is unchanged. -/
def handleV2 (s : PState) (m : RawMsg) : PState × Bool :=
  if m.falsy then (s, false)
  else if m.jsonrpc ≠ some "2.0" then (s, false)
  else
    let r := respondV2 s m
    if r.2 then r
    else
      let d := dispatchResult m
      ({ r.1 with events := r.1.events ++ d.1 }, d.2)

def stepV1 (cfg : Nat) (s : PState) : Event → PState
  | .issue emb id mtd ps => issueStep s emb id mtd ps
  | .recv m => (handleV1 s m).1
  | .fire id => fireV1 cfg s id

def stepV2 (cfg : Nat) (s : PState) : Event → PState
  | .issue emb id mtd ps => issueStep s emb id mtd ps
  | .recv m => (handleV2 s m).1
  | .fire id => fireV2 cfg s id

def runFromV1 (cfg : Nat) (s : PState) (evts : List Event) : PState :=
  evts.foldl (stepV1 cfg) s

def runV1 (cfg : Nat) (evts : List Event) : PState :=
  runFromV1 cfg initState evts

def runFromV2 (cfg : Nat) (s : PState) (evts : List Event) : PState :=
  evts.foldl (stepV2 cfg) s

def runV2 (cfg : Nat) (evts : List Event) : PState :=
  runFromV2 cfg initState evts

/-- Number of completions delivered to caller invocation `c`. -/
def countLog (c : Nat) (log : List (Nat × Outcome)) : Nat :=
  (log.filter (fun p => p.1 = c)).length

/-- The condition under which the method-switch dispatch throws: a
recognized parameter-indexing method with a nullish (`undefined` or `null`)
`params` value. -/
def dispatchThrowsPred (m : RawMsg) : Bool :=
  jsNullish m.params &&
    (m.method == some "close" || m.method == some "chainChanged" ||
     m.method == some "networkChanged" || m.method == some "accountsChanged")

/-- The exact condition under which V1's message handler body throws
(computed, to be proven equal to the handler's thrown flag): protocol
version accepted and a throwing dispatch. -/
def throwsPred (m : RawMsg) : Bool :=
  !m.falsy && (m.jsonrpc == some "2.0") && dispatchThrowsPred m

/-- The condition under which V2's response-matching step throws: a
present, non-null identifier bound in the table with a nullish `error`
value (reading `message.error.message` raises a `TypeError`). -/
def respThrowsV2 (s : PState) (m : RawMsg) : Bool :=
  idPresent m.id && (tblLookup (coerceId m.id) s.completers).isSome
    && (m.error == ErrField.nullish)

/-- The exact condition under which V2's message handler body throws:
protocol version accepted, and either the response-matching step throws
(which then skips the dispatch) or the dispatch throws. -/
def throwsPredV2 (s : PState) (m : RawMsg) : Bool :=
  !m.falsy && (m.jsonrpc == some "2.0")
    && (respThrowsV2 s m || dispatchThrowsPred m)

/-- A message stream constraint: any accepted response-shaped message (not
falsy, right version, present non-null id) carries a present `error`
property or a `result` member. -/
def respWellFormed (m : RawMsg) : Bool :=
  !(!m.falsy && (m.jsonrpc == some "2.0") && idPresent m.id)
    || (errPresent m.error || m.result.isSome)

def eventOk : Event → Bool
  | .recv m => respWellFormed m
  | _ => true

/-- A message stream constraint for comparing the two versions: no inbound
message carries a present-but-nullish `error` property (on a matched entry
such a message makes the versions diverge: V1 completes and deletes, V2
throws before reject and delete). -/
def eventNoNullishErr : Event → Bool
  | .recv m => !(m.error == ErrField.nullish)
  | _ => true

/-- Outcome correspondence between the two versions: identical successes;
failures may carry different error representations. -/
def outcomeRel : Outcome → Outcome → Prop
  | .success v, .success w => v = w
  | .failure _, .failure _ => True
  | _, _ => False

def logRel (l1 l2 : List (Nat × Outcome)) : Prop :=
  List.Forall₂ (fun a b => a.1 = b.1 ∧ outcomeRel a.2 b.2) l1 l2

/-- Correspondence between a V1 state and a V2 state: everything equal
except completion outcomes, which are related by `outcomeRel`. -/
structure SimR (s1 s2 : PState) : Prop where
  ceq : s1.completers = s2.completers
  teq : s1.timers = s2.timers
  neq : s1.nextCall = s2.nextCall
  seq : s1.sent = s2.sent
  eeq : s1.events = s2.events
  lrel : logRel s1.log s2.log

/-- Reachable-state invariant of the pending-call table: keys and stored
call indices are duplicate-free, stored indices are already-issued calls
with no logged completion, and no call is ever completed twice. -/
structure Inv (s : PState) : Prop where
  keysNodup : (s.completers.map Prod.fst).Nodup
  valsNodup : (s.completers.map Prod.snd).Nodup
  valsLt : ∀ p ∈ s.completers, p.2 < s.nextCall
  tblZero : ∀ p ∈ s.completers, countLog p.2 s.log = 0
  leOne : ∀ c : Nat, countLog c s.log ≤ 1
  geZero : ∀ c : Nat, s.nextCall ≤ c → countLog c s.log = 0

/-- Strengthened invariant under a well-formed message stream and
collision-free identifiers: every issued call not in the table has exactly
one completion, every table key has an armed timer, and table keys come
from `used` (the identifiers consumed so far). -/
structure InvT (s : PState) (used : List String) : Prop where
  base : Inv s
  doneOne : ∀ c : Nat, c < s.nextCall → c ∉ s.completers.map Prod.snd →
    countLog c s.log = 1
  keyTimer : ∀ p ∈ s.completers, p.1 ∈ s.timers
  keyUsed : ∀ p ∈ s.completers, p.1 ∈ used

end IFrameProvider

namespace IFrameProvider

theorem countLog_nil (c : Nat) : countLog c [] = 0 := rfl

theorem countLog_append (c : Nat) (l1 l2 : List (Nat × Outcome)) :
    countLog c (l1 ++ l2) = countLog c l1 + countLog c l2 := by
  simp [countLog, List.filter_append]

theorem countLog_single (c d : Nat) (o : Outcome) :
    countLog c [(d, o)] = if c = d then 1 else 0 := by
  by_cases h : c = d
  · simp [countLog, h]
  · simp [countLog, h]
    exact fun hh => h hh.symm

theorem countLog_single_self (c : Nat) (o : Outcome) :
    countLog c [(c, o)] = 1 := by
  simp [countLog_single]

theorem countLog_single_ne {c d : Nat} (h : c ≠ d) (o : Outcome) :
    countLog c [(d, o)] = 0 := by
  simp [countLog_single, h]

theorem tblLookup_mem {id : String} {t : List (String × Nat)} {c : Nat}
    (h : tblLookup id t = some c) : (id, c) ∈ t := by
  induction t with
  | nil => simp [tblLookup] at h
  | cons p rest ih =>
    rw [tblLookup] at h
    split at h
    · next heq =>
      injection h with h2
      subst h2
      cases p with
      | mk k v =>
        simp only at heq
        subst heq
        exact List.mem_cons_self _ _
    · exact List.mem_cons_of_mem _ (ih h)

theorem tblLookup_eq_none_of_not_mem {id : String} {t : List (String × Nat)}
    (h : ∀ p ∈ t, p.1 ≠ id) : tblLookup id t = none := by
  induction t with
  | nil => rfl
  | cons p rest ih =>
    rw [tblLookup]
    split
    · next heq => exact absurd heq (h p (List.mem_cons_self p rest))
    · exact ih (fun q hq => h q (List.mem_cons_of_mem _ hq))

theorem mem_tblDelete {id : String} {t : List (String × Nat)} {p : String × Nat} :
    p ∈ tblDelete id t ↔ p ∈ t ∧ p.1 ≠ id := by
  simp [tblDelete, List.mem_filter]

theorem tblDelete_sublist (id : String) (t : List (String × Nat)) :
    List.Sublist (tblDelete id t) t := List.filter_sublist t

theorem mem_tblInsert {id : String} {c : Nat} {t : List (String × Nat)}
    {p : String × Nat} :
    p ∈ tblInsert id c t ↔ p = (id, c) ∨ (p ∈ t ∧ p.1 ≠ id) := by
  simp [tblInsert, mem_tblDelete]

theorem inv_init : Inv initState := by
  refine ⟨?_, ?_, ?_, ?_, ?_, ?_⟩ <;> simp [initState, countLog]

theorem inv_events_update {s : PState} (ev : List EmitEvent) (h : Inv s) :
    Inv { s with events := ev } :=
  ⟨h.keysNodup, h.valsNodup, h.valsLt, h.tblZero, h.leOne, h.geZero⟩

theorem inv_timers_update {s : PState} (ts : List String) (h : Inv s) :
    Inv { s with timers := ts } :=
  ⟨h.keysNodup, h.valsNodup, h.valsLt, h.tblZero, h.leOne, h.geZero⟩

theorem inv_complete {s : PState} {key : String} {c : Nat} (o : Outcome)
    (h : Inv s) (hl : tblLookup key s.completers = some c) :
    Inv { s with log := s.log ++ [(c, o)],
                 completers := tblDelete key s.completers } := by
  have hm : (key, c) ∈ s.completers := tblLookup_mem hl
  have hc : c < s.nextCall := h.valsLt _ hm
  refine ⟨?_, ?_, ?_, ?_, ?_, ?_⟩
  · exact ((tblDelete_sublist key s.completers).map Prod.fst).nodup h.keysNodup
  · exact ((tblDelete_sublist key s.completers).map Prod.snd).nodup h.valsNodup
  · intro p hp
    exact h.valsLt _ (mem_tblDelete.mp hp).1
  · intro p hp
    rcases mem_tblDelete.mp hp with ⟨hpt, hpk⟩
    have hne : p.2 ≠ c := by
      intro hpc
      have := List.inj_on_of_nodup_map h.valsNodup hpt hm hpc
      exact hpk (by rw [this])
    rw [countLog_append, h.tblZero _ hpt, countLog_single_ne hne]
  · intro d
    rw [countLog_append]
    by_cases hd : d = c
    · subst hd
      rw [h.tblZero _ hm, countLog_single_self]
    · rw [countLog_single_ne hd]
      have := h.leOne d
      omega
  · intro d hdn
    have hdn2 : s.nextCall ≤ d := hdn
    have hdc : d ≠ c := by omega
    rw [countLog_append, h.geZero d hdn2, countLog_single_ne hdc]

theorem inv_deleteOnly {s : PState} (key : String) (h : Inv s) :
    Inv { s with completers := tblDelete key s.completers } := by
  refine ⟨?_, ?_, ?_, ?_, h.leOne, h.geZero⟩
  · exact ((tblDelete_sublist key s.completers).map Prod.fst).nodup h.keysNodup
  · exact ((tblDelete_sublist key s.completers).map Prod.snd).nodup h.valsNodup
  · intro p hp
    exact h.valsLt _ (mem_tblDelete.mp hp).1
  · intro p hp
    exact h.tblZero _ (mem_tblDelete.mp hp).1

theorem inv_issue {s : PState} (h : Inv s) (emb : Bool) (id mtd : String)
    (ps : Option (List JsonValue)) : Inv (issueStep s emb id mtd ps) := by
  cases emb with
  | false =>
    refine ⟨h.keysNodup, h.valsNodup, ?_, ?_, ?_, ?_⟩
    · intro p hp
      have := h.valsLt _ hp
      simp only [issueStep, Bool.false_eq_true, if_false]
      omega
    · intro p hp
      have hlt := h.valsLt _ hp
      have hne : p.2 ≠ s.nextCall := by omega
      simp only [issueStep, Bool.false_eq_true, if_false]
      rw [countLog_append, h.tblZero _ hp, countLog_single_ne hne]
    · intro d
      simp only [issueStep, Bool.false_eq_true, if_false]
      rw [countLog_append]
      by_cases hd : d = s.nextCall
      · subst hd
        rw [h.geZero _ (le_refl _), countLog_single_self]
      · rw [countLog_single_ne hd]
        have := h.leOne d
        omega
    · intro d hd
      simp only [issueStep, Bool.false_eq_true, if_false] at hd ⊢
      have h1 : s.nextCall ≤ d := by omega
      have h2 : d ≠ s.nextCall := by omega
      rw [countLog_append, h.geZero d h1, countLog_single_ne h2]
  | true =>
    refine ⟨?_, ?_, ?_, ?_, h.leOne, ?_⟩
    · simp only [issueStep, if_true, tblInsert, List.map_cons]
      refine List.nodup_cons.mpr ⟨?_, ?_⟩
      · intro hmem
        rcases List.mem_map.mp hmem with ⟨p, hp, hpk⟩
        exact (mem_tblDelete.mp hp).2 hpk
      · exact ((tblDelete_sublist id s.completers).map Prod.fst).nodup h.keysNodup
    · simp only [issueStep, if_true, tblInsert, List.map_cons]
      refine List.nodup_cons.mpr ⟨?_, ?_⟩
      · intro hmem
        rcases List.mem_map.mp hmem with ⟨p, hp, hpv⟩
        have := h.valsLt _ (mem_tblDelete.mp hp).1
        omega
      · exact ((tblDelete_sublist id s.completers).map Prod.snd).nodup h.valsNodup
    · intro p hp
      simp only [issueStep, if_true] at hp ⊢
      rcases mem_tblInsert.mp hp with hpc | ⟨hpt, _⟩
      · rw [hpc]
        exact Nat.lt_succ_self _
      · have := h.valsLt _ hpt
        omega
    · intro p hp
      simp only [issueStep, if_true] at hp ⊢
      rcases mem_tblInsert.mp hp with hpc | ⟨hpt, _⟩
      · rw [hpc]
        exact h.geZero _ (le_refl _)
      · exact h.tblZero _ hpt
    · intro d hd
      simp only [issueStep, if_true] at hd ⊢
      exact h.geZero d (by omega)

theorem inv_fireV1 (cfg : Nat) {s : PState} (h : Inv s) (id : String) :
    Inv (fireV1 cfg s id) := by
  unfold fireV1
  have h1 : Inv { s with timers := s.timers.erase id } := inv_timers_update _ h
  cases hl : tblLookup id ({ s with timers := s.timers.erase id } : PState).completers with
  | some c =>
    simp only [hl]
    exact inv_complete _ h1 hl
  | none =>
    simp only [hl]
    exact h1

theorem inv_fireV2 (cfg : Nat) {s : PState} (h : Inv s) (id : String) :
    Inv (fireV2 cfg s id) := by
  unfold fireV2
  have h1 : Inv { s with timers := s.timers.erase id } := inv_timers_update _ h
  cases hl : tblLookup id ({ s with timers := s.timers.erase id } : PState).completers with
  | some c =>
    simp only [hl]
    exact inv_complete _ h1 hl
  | none =>
    simp only [hl]
    exact h1

theorem inv_respondV1 {s : PState} (h : Inv s) (m : RawMsg) :
    Inv (respondV1 s m) := by
  unfold respondV1
  by_cases hid : idPresent m.id
  · simp only [hid, if_true]
    cases hl : tblLookup (coerceId m.id) s.completers with
    | some c =>
      simp only
      by_cases hw : errPresent m.error || m.result.isSome
      · simp only [hw, if_true]
        exact inv_complete _ h hl
      · simp only [hw, if_false]
        exact inv_deleteOnly _ h
    | none =>
      simp only
      exact h
  · simp only [hid, if_false]
    exact h

theorem inv_respondV2 {s : PState} (h : Inv s) (m : RawMsg) :
    Inv (respondV2 s m).1 := by
  unfold respondV2
  by_cases hid : idPresent m.id
  · simp only [hid, if_true]
    cases hl : tblLookup (coerceId m.id) s.completers with
    | some c =>
      simp only
      cases he : m.error with
      | nullish =>
        exact h
      | obj e =>
        exact inv_complete _ h hl
      | absent =>
        cases hr : m.result with
        | some v =>
          simp only
          exact inv_complete _ h hl
        | none =>
          simp only
          exact inv_deleteOnly _ h
    | none =>
      simp only
      exact h
  · simp only [hid, if_false]
    exact h

theorem inv_handleV1 {s : PState} (h : Inv s) (m : RawMsg) :
    Inv (handleV1 s m).1 := by
  unfold handleV1
  by_cases hf : m.falsy
  · simp only [hf, if_true]
    exact h
  · simp only [hf, if_false]
    by_cases hj : m.jsonrpc ≠ some "2.0"
    · rw [if_pos hj]
      exact h
    · rw [if_neg hj]
      exact inv_events_update _ (inv_respondV1 h m)

theorem inv_handleV2 {s : PState} (h : Inv s) (m : RawMsg) :
    Inv (handleV2 s m).1 := by
  unfold handleV2
  by_cases hf : m.falsy
  · simp only [hf, if_true]
    exact h
  · simp only [hf, if_false]
    by_cases hj : m.jsonrpc ≠ some "2.0"
    · rw [if_pos hj]
      exact h
    · rw [if_neg hj]
      by_cases hr : (respondV2 s m).2
      · rw [if_pos hr]
        exact inv_respondV2 h m
      · rw [if_neg hr]
        exact inv_events_update _ (inv_respondV2 h m)

theorem inv_stepV1 (cfg : Nat) {s : PState} (h : Inv s) (e : Event) :
    Inv (stepV1 cfg s e) := by
  cases e with
  | issue emb id mtd ps => exact inv_issue h emb id mtd ps
  | recv m => exact inv_handleV1 h m
  | fire id => exact inv_fireV1 cfg h id

theorem inv_stepV2 (cfg : Nat) {s : PState} (h : Inv s) (e : Event) :
    Inv (stepV2 cfg s e) := by
  cases e with
  | issue emb id mtd ps => exact inv_issue h emb id mtd ps
  | recv m => exact inv_handleV2 h m
  | fire id => exact inv_fireV2 cfg h id

theorem inv_runFromV1 (cfg : Nat) (evts : List Event) :
    ∀ s : PState, Inv s → Inv (runFromV1 cfg s evts) := by
  induction evts with
  | nil => intro s h; exact h
  | cons e rest ih =>
    intro s h
    exact ih _ (inv_stepV1 cfg h e)

theorem inv_runV1 (cfg : Nat) (evts : List Event) : Inv (runV1 cfg evts) :=
  inv_runFromV1 cfg evts initState inv_init

theorem inv_runFromV2 (cfg : Nat) (evts : List Event) :
    ∀ s : PState, Inv s → Inv (runFromV2 cfg s evts) := by
  induction evts with
  | nil => intro s h; exact h
  | cons e rest ih =>
    intro s h
    exact ih _ (inv_stepV2 cfg h e)

theorem inv_runV2 (cfg : Nat) (evts : List Event) : Inv (runV2 cfg evts) :=
  inv_runFromV2 cfg evts initState inv_init

end IFrameProvider

namespace IFrameProvider

theorem tblLookup_none_forall {id : String} {t : List (String × Nat)}
    (h : tblLookup id t = none) : ∀ p ∈ t, p.1 ≠ id := by
  induction t with
  | nil => intro p hp; simp at hp
  | cons q rest ih =>
    rw [tblLookup] at h
    split at h
    · exact absurd h (by simp)
    · next hq =>
      intro p hp
      rcases List.mem_cons.mp hp with hpq | hpr
      · rw [hpq]; exact hq
      · exact ih h p hpr

theorem tblDelete_eq_of_not_mem {id : String} {t : List (String × Nat)}
    (h : ∀ p ∈ t, p.1 ≠ id) : tblDelete id t = t := by
  unfold tblDelete
  apply List.filter_eq_self.mpr
  intro p hp
  simpa using h p hp

theorem invT_init : InvT initState [] := by
  refine ⟨inv_init, ?_, ?_, ?_⟩
  · intro c hc
    simp [initState] at hc
  · intro p hp
    simp [initState] at hp
  · intro p hp
    simp [initState] at hp

theorem invT_events_update {s : PState} {used : List String}
    (ev : List EmitEvent) (h : InvT s used) : InvT { s with events := ev } used :=
  ⟨inv_events_update ev h.base, h.doneOne, h.keyTimer, h.keyUsed⟩

theorem invT_issue_embedded {s : PState} {used : List String} {id : String}
    (mtd : String) (ps : Option (List JsonValue))
    (h : InvT s used) (hfresh : id ∉ used) :
    InvT (issueStep s true id mtd ps) (used ++ [id]) := by
  have hkeys : ∀ p ∈ s.completers, p.1 ≠ id := by
    intro p hp hpid
    exact hfresh (hpid ▸ h.keyUsed p hp)
  have hdel : tblDelete id s.completers = s.completers := tblDelete_eq_of_not_mem hkeys
  refine ⟨inv_issue h.base true id mtd ps, ?_, ?_, ?_⟩
  · intro c hc hnot
    simp only [issueStep, if_true, tblInsert, hdel, List.map_cons, List.mem_cons] at hc hnot ⊢
    push_neg at hnot
    rcases hnot with ⟨hcn, hnt⟩
    have hlt : c < s.nextCall := by omega
    exact h.doneOne c hlt hnt
  · intro p hp
    simp only [issueStep, if_true, tblInsert, hdel] at hp ⊢
    rcases List.mem_cons.mp hp with hpe | hpt
    · rw [hpe]
      exact List.mem_append_right _ (List.mem_singleton.mpr rfl)
    · exact List.mem_append_left _ (h.keyTimer p hpt)
  · intro p hp
    simp only [issueStep, if_true, tblInsert, hdel] at hp
    rcases List.mem_cons.mp hp with hpe | hpt
    · rw [hpe]
      exact List.mem_append_right _ (List.mem_singleton.mpr rfl)
    · exact List.mem_append_left _ (h.keyUsed p hpt)

theorem invT_issue_notEmbedded {s : PState} {used : List String}
    (id mtd : String) (ps : Option (List JsonValue)) (h : InvT s used) :
    InvT (issueStep s false id mtd ps) used := by
  refine ⟨inv_issue h.base false id mtd ps, ?_, ?_, ?_⟩
  · intro c hc hnot
    simp only [issueStep, Bool.false_eq_true, if_false] at hc hnot ⊢
    rw [countLog_append]
    by_cases hcn : c = s.nextCall
    · subst hcn
      rw [h.base.geZero _ (le_refl _), countLog_single_self]
    · have hlt : c < s.nextCall := by omega
      rw [h.doneOne c hlt hnot, countLog_single_ne hcn]
  · intro p hp
    simp only [issueStep, Bool.false_eq_true, if_false] at hp ⊢
    exact h.keyTimer p hp
  · intro p hp
    simp only [issueStep, Bool.false_eq_true, if_false] at hp
    exact h.keyUsed p hp

theorem doneOne_complete {s : PState} {key : String}
    {c : Nat} (o : Outcome) (hb : Inv s)
    (hdone : ∀ d : Nat, d < s.nextCall → d ∉ s.completers.map Prod.snd →
      countLog d s.log = 1)
    (hl : tblLookup key s.completers = some c) :
    ∀ d : Nat, d < s.nextCall → d ∉ (tblDelete key s.completers).map Prod.snd →
      countLog d (s.log ++ [(c, o)]) = 1 := by
  have hm : (key, c) ∈ s.completers := tblLookup_mem hl
  intro d hd hnot
  rw [countLog_append]
  by_cases hdc : d = c
  · subst hdc
    rw [hb.tblZero _ hm, countLog_single_self]
  · rw [countLog_single_ne hdc]
    have hnt : d ∉ s.completers.map Prod.snd := by
      intro hmem
      rcases List.mem_map.mp hmem with ⟨p, hpt, hpv⟩
      by_cases hpk : p.1 = key
      · have : p = (key, c) :=
          List.inj_on_of_nodup_map hb.keysNodup hpt hm hpk
        exact hdc (by rw [← hpv, this])
      · apply hnot
        exact List.mem_map.mpr ⟨p, mem_tblDelete.mpr ⟨hpt, hpk⟩, hpv⟩
    rw [hdone d hd hnt]

theorem invT_complete {s : PState} {used : List String} {key : String} {c : Nat}
    (o : Outcome) (h : InvT s used) (hl : tblLookup key s.completers = some c) :
    InvT { s with log := s.log ++ [(c, o)],
                  completers := tblDelete key s.completers } used := by
  refine ⟨inv_complete o h.base hl, ?_, ?_, ?_⟩
  · intro d hd hnot
    exact doneOne_complete o h.base h.doneOne hl d hd hnot
  · intro p hp
    exact h.keyTimer p (mem_tblDelete.mp hp).1
  · intro p hp
    exact h.keyUsed p (mem_tblDelete.mp hp).1

theorem invT_respondV1 {s : PState} {used : List String} {m : RawMsg}
    (h : InvT s used)
    (hf : m.falsy = false) (hj : m.jsonrpc = some "2.0")
    (hwf : respWellFormed m = true) :
    InvT (respondV1 s m) used := by
  unfold respondV1
  by_cases hid : idPresent m.id
  · rw [if_pos hid]
    cases hl : tblLookup (coerceId m.id) s.completers with
    | some c =>
      have hg : (errPresent m.error || m.result.isSome) = true := by
        unfold respWellFormed at hwf
        rw [hf, hj, hid] at hwf
        simpa using hwf
      simp only [hg, if_true]
      exact invT_complete _ h hl
    | none =>
      simp only
      exact h
  · rw [if_neg hid]
    exact h

theorem invT_handleV1 {s : PState} {used : List String} {m : RawMsg}
    (h : InvT s used) (hwf : respWellFormed m = true) :
    InvT (handleV1 s m).1 used := by
  unfold handleV1
  by_cases hf : m.falsy
  · rw [if_pos hf]
    exact h
  · rw [if_neg hf]
    by_cases hj : m.jsonrpc ≠ some "2.0"
    · rw [if_pos hj]
      exact h
    · rw [if_neg hj]
      push_neg at hj
      exact invT_events_update _
        (invT_respondV1 h (Bool.not_eq_true _ ▸ eq_false_of_ne_true hf) hj hwf)

theorem invT_fireV1 (cfg : Nat) {s : PState} {used : List String} (id : String)
    (h : InvT s used) : InvT (fireV1 cfg s id) used := by
  unfold fireV1
  cases hl : tblLookup id ({ s with timers := s.timers.erase id } : PState).completers with
  | some c =>
    simp only [hl]
    have hb1 : Inv { s with timers := s.timers.erase id } :=
      inv_timers_update _ h.base
    refine ⟨inv_complete _ hb1 hl, ?_, ?_, ?_⟩
    · intro d hd hnot
      exact doneOne_complete _ hb1 h.doneOne hl d hd hnot
    · intro p hp
      rcases mem_tblDelete.mp hp with ⟨hpt, hpk⟩
      exact (List.mem_erase_of_ne hpk).mpr (h.keyTimer p hpt)
    · intro p hp
      exact h.keyUsed p (mem_tblDelete.mp hp).1
  | none =>
    simp only [hl]
    refine ⟨inv_timers_update _ h.base, h.doneOne, ?_, h.keyUsed⟩
    intro p hp
    have hpk : p.1 ≠ id := tblLookup_none_forall hl p hp
    exact (List.mem_erase_of_ne hpk).mpr (h.keyTimer p hp)

end IFrameProvider

namespace IFrameProvider

theorem issueIds_cons_embedded (id mtd : String) (ps : Option (List JsonValue))
    (rest : List Event) :
    issueIds (.issue true id mtd ps :: rest) = id :: issueIds rest := rfl

theorem issueIds_cons_notEmbedded (id mtd : String) (ps : Option (List JsonValue))
    (rest : List Event) :
    issueIds (.issue false id mtd ps :: rest) = issueIds rest := rfl

theorem issueIds_cons_recv (m : RawMsg) (rest : List Event) :
    issueIds (.recv m :: rest) = issueIds rest := rfl

theorem issueIds_cons_fire (id : String) (rest : List Event) :
    issueIds (.fire id :: rest) = issueIds rest := rfl

theorem invT_runFromV1 (cfg : Nat) :
    ∀ (evts : List Event) (s : PState) (used : List String),
      InvT s used →
      (used ++ issueIds evts).Nodup →
      evts.all eventOk = true →
      InvT (runFromV1 cfg s evts) (used ++ issueIds evts) := by
  intro evts
  induction evts with
  | nil =>
    intro s used h hn _
    simpa [issueIds] using h
  | cons e rest ih =>
    intro s used h hn ha
    rw [List.all_cons, Bool.and_eq_true] at ha
    have hstep : runFromV1 cfg s (e :: rest) = runFromV1 cfg (stepV1 cfg s e) rest :=
      List.foldl_cons _ _
    rw [hstep]
    cases e with
    | issue emb id mtd ps =>
      cases emb with
      | true =>
        rw [issueIds_cons_embedded] at hn ⊢
        have hfresh : id ∉ used := by
          intro hid
          rcases List.nodup_append.mp hn with ⟨_, _, hdisj⟩
          exact hdisj hid (List.mem_cons_self id _)
        rw [List.append_cons] at hn ⊢
        have h' : InvT (stepV1 cfg s (.issue true id mtd ps)) (used ++ [id]) :=
          invT_issue_embedded mtd ps h hfresh
        exact ih _ (used ++ [id]) h' hn ha.2
      | false =>
        rw [issueIds_cons_notEmbedded] at hn ⊢
        have h' : InvT (stepV1 cfg s (.issue false id mtd ps)) used :=
          invT_issue_notEmbedded id mtd ps h
        exact ih _ used h' hn ha.2
    | recv m =>
      rw [issueIds_cons_recv] at hn ⊢
      have h' : InvT (stepV1 cfg s (.recv m)) used := invT_handleV1 h ha.1
      exact ih _ used h' hn ha.2
    | fire id =>
      rw [issueIds_cons_fire] at hn ⊢
      have h' : InvT (stepV1 cfg s (.fire id)) used := invT_fireV1 cfg id h
      exact ih _ used h' hn ha.2

theorem invT_runV1 (cfg : Nat) (evts : List Event)
    (hn : (issueIds evts).Nodup) (ha : evts.all eventOk = true) :
    InvT (runV1 cfg evts) (issueIds evts) := by
  have h := invT_runFromV1 cfg evts initState [] invT_init (by simpa using hn) ha
  simpa using h

end IFrameProvider

namespace IFrameProvider

/-- Claim C1, counterexample to the claim as stated: with one call issued
(index 0), a matching response carrying neither `result` nor `error`
delivered, and the call's own timer fired, every completion source has
acted, yet the completion log is empty — neither resolve nor reject was
ever invoked for the call, refuting "exactly one of the resolve or reject
callbacks ... is invoked". -/
theorem claim_C1_counterexample :
    (runV1 5 [.issue true "7" "m" none,
        .recv { jsonrpc := some "2.0", id := .str "7" }, .fire "7"]).log = []
    ∧ (runV1 5 [.issue true "7" "m" none,
        .recv { jsonrpc := some "2.0", id := .str "7" }, .fire "7"]).timers = []
    ∧ (runV1 5 [.issue true "7" "m" none,
        .recv { jsonrpc := some "2.0", id := .str "7" }, .fire "7"]).nextCall = 1 := by
  decide

/-- Claim C1 (amended): for every call issued through the provider, at most
one of resolve/reject is invoked, at most once, and the entry is removed
from the pending-call table no later than that invocation; exactly-once
completion additionally holds provided the generated identifiers never
collide, every inbound message that matches the accepted response shape
carries a `result` or `error` member, and every armed timer eventually
fires. -/
theorem claim_C1 (cfg : Nat) (evts : List Event) :
    (∀ c : Nat, countLog c (runV1 cfg evts).log ≤ 1)
    ∧ (∀ p ∈ (runV1 cfg evts).completers, countLog p.2 (runV1 cfg evts).log = 0)
    ∧ ((issueIds evts).Nodup → evts.all eventOk = true →
        (runV1 cfg evts).timers = [] →
        ∀ c : Nat, c < (runV1 cfg evts).nextCall →
          countLog c (runV1 cfg evts).log = 1) := by
  refine ⟨(inv_runV1 cfg evts).leOne, (inv_runV1 cfg evts).tblZero, ?_⟩
  intro hn ha hfired c hc
  have h := invT_runV1 cfg evts hn ha
  apply h.doneOne c hc
  intro hmem
  rcases List.mem_map.mp hmem with ⟨p, hpt, _⟩
  have hk := h.keyTimer p hpt
  rw [hfired] at hk
  exact absurd hk (List.not_mem_nil _)

theorem claim_C1_witness :
    countLog 0 (runV1 5 [.issue true "1" "m" none, .fire "1"]).log = 1 :=
  (claim_C1 5 [.issue true "1" "m" none, .fire "1"]).2.2 (by decide) (by decide)
    (by decide) 0 (by decide)

/-- Claim C6: when a timer fires while its identifier is still bound in the
pending-call table, the bound call is rejected with a timeout error whose
message carries the call identifier and the configured duration, and the
entry is removed; when the identifier is no longer bound, the timer changes
nothing except disarming itself. -/
theorem claim_C6 (cfg : Nat) (s : PState) (id : String) :
    (∀ c : Nat, tblLookup id s.completers = some c →
      (fireV1 cfg s id).log
          = s.log ++ [(c, .failure (.plainError (timeoutMsgV1 id cfg)))]
        ∧ (fireV1 cfg s id).completers = tblDelete id s.completers
        ∧ (∃ a b : String, timeoutMsgV1 id cfg = a ++ id ++ b)
        ∧ (∃ a b : String, timeoutMsgV1 id cfg = a ++ toString cfg ++ b))
    ∧ (tblLookup id s.completers = none →
        (fireV1 cfg s id).log = s.log
        ∧ (fireV1 cfg s id).completers = s.completers
        ∧ (fireV1 cfg s id).events = s.events
        ∧ (fireV1 cfg s id).sent = s.sent
        ∧ (fireV1 cfg s id).timers = s.timers.erase id) := by
  constructor
  · intro c hl
    unfold fireV1
    simp only [hl]
    refine ⟨by trivial, by trivial,
      ⟨"RPC ID \"", "\" timed out after " ++ toString cfg ++ " milliseconds", ?_⟩,
      ⟨"RPC ID \"" ++ id ++ "\" timed out after ", " milliseconds", ?_⟩⟩
    · simp [timeoutMsgV1, String.append_assoc]
    · simp [timeoutMsgV1, String.append_assoc]
  · intro hl
    unfold fireV1
    simp only [hl]
    exact ⟨by trivial, by trivial, by trivial, by trivial, by trivial⟩

theorem claim_C6_witness :
    ((fireV1 5 (runV1 5 [.issue true "9" "m" none]) "9").log
        = (runV1 5 [.issue true "9" "m" none]).log
          ++ [(0, .failure (.plainError (timeoutMsgV1 "9" 5)))])
    ∧ ((fireV1 5 (runV1 5 [.issue false "x" "m" none]) "9").completers
        = (runV1 5 [.issue false "x" "m" none]).completers) :=
  ⟨((claim_C6 5 (runV1 5 [.issue true "9" "m" none]) "9").1 0 (by decide)).1,
   (((claim_C6 5 (runV1 5 [.issue false "x" "m" none]) "9").2 (by decide)).2).1⟩

/-- Claim C7: a call issued while `isEmbeddedInIFrame()` reports false (the
window is not a nested child) fails immediately with the not-embedded
error; no pending-call entry is registered, no timer armed, and no message
handed to the transport — in both provider versions. -/
theorem claim_C7 (cfg : Nat) (s : PState) (id mtd : String)
    (ps : Option (List JsonValue)) :
    stepV1 cfg s (.issue false id mtd ps)
      = { s with log := s.log ++ [(s.nextCall, .failure notEmbeddedErr)],
                 nextCall := s.nextCall + 1 }
    ∧ stepV2 cfg s (.issue false id mtd ps)
      = { s with log := s.log ++ [(s.nextCall, .failure notEmbeddedErr)],
                 nextCall := s.nextCall + 1 } :=
  ⟨rfl, rfl⟩

end IFrameProvider

namespace IFrameProvider

theorem respondV1_complete {s : PState} {m : RawMsg} {c : Nat}
    (hid : idPresent m.id = true)
    (hl : tblLookup (coerceId m.id) s.completers = some c)
    (hg : (errPresent m.error || m.result.isSome) = true) :
    respondV1 s m
      = { s with log := s.log ++ [(c, outcomeV1 m)],
                 completers := tblDelete (coerceId m.id) s.completers } := by
  unfold respondV1
  rw [if_pos hid]
  simp only [hl, hg, if_true]

theorem respondV1_malformed {s : PState} {m : RawMsg} {c : Nat}
    (hid : idPresent m.id = true)
    (hl : tblLookup (coerceId m.id) s.completers = some c)
    (he : m.error = .absent) (hr : m.result = none) :
    respondV1 s m
      = { s with completers := tblDelete (coerceId m.id) s.completers } := by
  unfold respondV1
  rw [if_pos hid]
  simp only [hl, he, hr, errPresent, Option.isSome_none, Bool.or_self,
    Bool.false_eq_true, if_false]

theorem handleV1_accept {s : PState} {m : RawMsg}
    (hf : m.falsy = false) (hj : m.jsonrpc = some "2.0") :
    (handleV1 s m).1
      = { respondV1 s m with
            events := (respondV1 s m).events ++ (dispatchResult m).1 } := by
  unfold handleV1
  rw [if_neg (by simp [hf]), if_neg (by simp [hj])]

/-- Claim C2, counterexample to the claim as stated: a call is issued with
identifier "7", then a matching message with the accepted protocol version
and neither `result` nor `error` arrives; the pending-call entry does NOT
remain in the table (it is deleted), while no callback is invoked. -/
theorem claim_C2_counterexample :
    (runV1 5 [.issue true "7" "eth_call" none,
        .recv { jsonrpc := some "2.0", id := .str "7" }]).completers = []
    ∧ (runV1 5 [.issue true "7" "eth_call" none,
        .recv { jsonrpc := some "2.0", id := .str "7" }]).log = [] := by
  decide

/-- Claim C2 (amended): for every inbound message with a present, non-null
identifier matching a pending call but neither `result` nor `error`, the
handler invokes neither callback (the completion log is unchanged) but
nevertheless removes the pending-call entry from the table, so the call can
never be resolved or rejected afterwards and its own timeout later fires as
a no-op. -/
theorem claim_C2 (s : PState) (m : RawMsg) (c : Nat)
    (hf : m.falsy = false) (hj : m.jsonrpc = some "2.0")
    (hid : idPresent m.id = true)
    (hl : tblLookup (coerceId m.id) s.completers = some c)
    (he : m.error = .absent) (hr : m.result = none) :
    (handleV1 s m).1.log = s.log
    ∧ (handleV1 s m).1.completers
        = tblDelete (coerceId m.id) s.completers := by
  rw [handleV1_accept hf hj, respondV1_malformed hid hl he hr]
  exact ⟨rfl, rfl⟩

theorem claim_C2_witness :
    ((handleV1 (runV1 5 [.issue true "7" "eth_call" none])
        { jsonrpc := some "2.0", id := .str "7" }).1.log
      = (runV1 5 [.issue true "7" "eth_call" none]).log)
    ∧ ((handleV1 (runV1 5 [.issue true "7" "eth_call" none])
        { jsonrpc := some "2.0", id := .str "7" }).1.completers
      = tblDelete "7" (runV1 5 [.issue true "7" "eth_call" none]).completers) :=
  claim_C2 _ _ 0 rfl rfl rfl (by decide) rfl rfl

end IFrameProvider

namespace IFrameProvider

theorem dispatchResult_snd (m : RawMsg) :
    (dispatchResult m).2 = dispatchThrowsPred m := by
  unfold dispatchResult dispatchThrowsPred
  cases hm : m.method with
  | none => simp
  | some name =>
    by_cases h1 : name = "notification"
    · subst h1
      by_cases hn : jsNullish m.params <;> simp [hn]
    · by_cases h2 : name = "connect"
      · subst h2
        by_cases hn : jsNullish m.params <;> simp [hn]
      · by_cases h3 : name = "close"
        · subst h3
          by_cases hn : jsNullish m.params <;> simp [indexJs, hn, h1, h2]
        · by_cases h4 : name = "chainChanged"
          · subst h4
            by_cases hn : jsNullish m.params <;> simp [indexJs, hn, h1, h2, h3]
          · by_cases h5 : name = "networkChanged"
            · subst h5
              by_cases hn : jsNullish m.params <;>
                simp [indexJs, hn, h1, h2, h3, h4]
            · by_cases h6 : name = "accountsChanged"
              · subst h6
                by_cases hn : jsNullish m.params <;>
                  simp [indexJs, hn, h1, h2, h3, h4, h5]
              · by_cases hn : jsNullish m.params <;>
                  simp [hn, h1, h2, h3, h4, h5, h6]

theorem handleV1_snd (s : PState) (m : RawMsg) :
    (handleV1 s m).2
      = (!m.falsy && (m.jsonrpc == some "2.0") && (dispatchResult m).2) := by
  unfold handleV1
  cases hf : m.falsy <;> by_cases hj : m.jsonrpc = some "2.0" <;> simp [hj]

theorem respondV2_snd (s : PState) (m : RawMsg) :
    (respondV2 s m).2 = respThrowsV2 s m := by
  unfold respondV2 respThrowsV2
  by_cases hid : idPresent m.id
  · rw [if_pos hid]
    cases hl : tblLookup (coerceId m.id) s.completers with
    | some c =>
      cases he : m.error with
      | nullish => simp [hid, hl, he]
      | obj e => simp [hid, hl, he]
      | absent =>
        cases hr : m.result with
        | some v => simp [hid, hl, he, hr]
        | none => simp [hid, hl, he, hr]
    | none => simp [hid, hl]
  · simp [hid]

theorem respondV2_nullish {s : PState} {m : RawMsg}
    (hid : idPresent m.id = true)
    (hl : (tblLookup (coerceId m.id) s.completers).isSome = true)
    (he : m.error = .nullish) :
    respondV2 s m = (s, true) := by
  unfold respondV2
  rw [if_pos hid]
  cases hl2 : tblLookup (coerceId m.id) s.completers with
  | some c => simp only [hl2, he]
  | none =>
    rw [hl2] at hl
    simp at hl

theorem handleV2_snd (s : PState) (m : RawMsg) :
    (handleV2 s m).2
      = (!m.falsy && (m.jsonrpc == some "2.0")
          && ((respondV2 s m).2 || (dispatchResult m).2)) := by
  unfold handleV2
  cases hf : m.falsy <;> by_cases hj : m.jsonrpc = some "2.0" <;>
    by_cases hr : (respondV2 s m).2 <;> simp [hj, hr]

/-- Claim C3, counterexample to the claim as stated: the inbound message
`{jsonrpc: "2.0", method: "close"}` with absent `params` makes the handler
throw (reading `message.params[0]` on `undefined`) instead of being
silently ignored — in both versions; so does `params: null`; and the second
version's handler additionally throws on a matching response whose `error`
property is present but null/undefined (reading `message.error.message`). -/
theorem claim_C3_counterexample :
    (handleV1 initState { jsonrpc := some "2.0", method := some "close" }).2 = true
    ∧ (handleV2 initState { jsonrpc := some "2.0", method := some "close" }).2 = true
    ∧ (handleV1 initState
        { jsonrpc := some "2.0", method := some "close", params := .vNull }).2
        = true
    ∧ (handleV2 (runV2 5 [.issue true "7" "m" none])
        { jsonrpc := some "2.0", id := .str "7", error := .nullish }).2 = true := by
  decide

/-- Claim C3 (amended): the inbound message handler returns without
throwing for every message EXCEPT exactly these: (both versions) messages
that pass the protocol-version check and carry a `method` equal to "close",
"chainChanged", "networkChanged" or "accountsChanged" together with a
null-or-undefined `params`, where indexing into `params` throws; and (the
second version only) messages that pass the protocol-version check and
whose present, non-null identifier matches a pending entry while the
`error` property is present but null/undefined, where reading
`error.message` throws before the reject and the delete — leaving the state
(so also the pending-call entry) unchanged. -/
theorem claim_C3 (s : PState) (m : RawMsg) :
    (handleV1 s m).2 = throwsPred m
    ∧ (handleV2 s m).2 = throwsPredV2 s m
    ∧ (respThrowsV2 s m = true → (handleV2 s m).1 = s) := by
  refine ⟨?_, ?_, ?_⟩
  · rw [handleV1_snd, dispatchResult_snd]
    rfl
  · rw [handleV2_snd, respondV2_snd, dispatchResult_snd]
    rfl
  · intro hrt
    unfold respThrowsV2 at hrt
    rw [Bool.and_eq_true, Bool.and_eq_true] at hrt
    rcases hrt with ⟨⟨hid, hsome⟩, hbeq⟩
    have he : m.error = .nullish := by simpa using hbeq
    have hresp := respondV2_nullish hid hsome he
    unfold handleV2
    by_cases hf : m.falsy
    · rw [if_pos hf]
    · rw [if_neg hf]
      by_cases hj : m.jsonrpc ≠ some "2.0"
      · rw [if_pos hj]
      · rw [if_neg hj]
        simp only [hresp]
        rfl

theorem claim_C3_witness :
    (handleV2 (runV2 5 [.issue true "7" "m" none])
        { jsonrpc := some "2.0", id := .str "7", error := .nullish }).1
      = runV2 5 [.issue true "7" "m" none] :=
  (claim_C3 (runV2 5 [.issue true "7" "m" none])
    { jsonrpc := some "2.0", id := .str "7", error := .nullish }).2.2 (by decide)

end IFrameProvider

namespace IFrameProvider

/-- Claim C4, counterexample to the claim as stated: under the second
provider implementation in the file, a matching response whose `error`
object carries `code: -32000` and `reason: "Unauthorized"` rejects the call
with a plain `Error` whose message is `""` (it reads the absent
`error.message`), not with an `RpcError` exposing `code === -32000` and
`reason === "Unauthorized"`. -/
theorem claim_C4_counterexample :
    (runV2 5 [.issue true "9" "eth_accounts" none,
        .recv { jsonrpc := some "2.0", id := .str "9",
                error := .obj ⟨-32000, some "Unauthorized", none⟩ }]).log
      = [(0, .failure (.plainError ""))]
    ∧ (runV2 5 [.issue true "9" "eth_accounts" none,
        .recv { jsonrpc := some "2.0", id := .str "9",
                error := .obj ⟨-32000, some "Unauthorized", none⟩ }]).log
      ≠ [(0, .failure (.rpcError (-32000) (some "Unauthorized")))] := by
  decide

/-- Claim C4 (amended): under the FIRST implementation the claim holds: a
call whose matching response carries an `error` member is rejected through
`send` with an `RpcError` exposing the error object's `code` and `reason`
verbatim (hence `-32000` and `"Unauthorized"` for that response); the
second implementation instead rejects with a plain `Error` built from the
error object's `message` member. -/
theorem claim_C4 (s : PState) (m : RawMsg) (c : Nat) (e : ErrObj)
    (hf : m.falsy = false) (hj : m.jsonrpc = some "2.0")
    (hid : idPresent m.id = true)
    (hl : tblLookup (coerceId m.id) s.completers = some c)
    (he : m.error = .obj e) :
    (handleV1 s m).1.log
      = s.log ++ [(c, .failure (.rpcError e.code e.reason))] := by
  have hg : (errPresent m.error || m.result.isSome) = true := by
    rw [he]
    simp [errPresent]
  rw [handleV1_accept hf hj, respondV1_complete hid hl hg]
  show s.log ++ [(c, outcomeV1 m)] = _
  unfold outcomeV1
  rw [he]

theorem claim_C4_witness :
    (handleV1 (runV1 5 [.issue true "9" "eth_accounts" none])
        { jsonrpc := some "2.0", id := .str "9",
          error := .obj ⟨-32000, some "Unauthorized", none⟩ }).1.log
      = (runV1 5 [.issue true "9" "eth_accounts" none]).log
        ++ [(0, .failure (.rpcError (-32000) (some "Unauthorized")))] :=
  claim_C4 _ _ 0 ⟨-32000, some "Unauthorized", none⟩ rfl rfl rfl (by decide) rfl

/-- Claim C5, counterexample to the claim as stated: the envelope produced
for method "eth_sign" with params ["hello","world"] carries its protocol
version under the property name "jsonrpc", not "protocolVersion": its
ordered field names are exactly ["jsonrpc", "id", "method", "params"]. -/
theorem claim_C5_counterexample :
    ((runV1 5 [.issue true "42" "eth_sign"
        (some [.vStr "hello", .vStr "world"])]).sent.map Payload.fields)
      = [[("jsonrpc", .vStr "2.0"), ("id", .vStr "42"),
          ("method", .vStr "eth_sign"),
          ("params", .vArr [.vStr "hello", .vStr "world"])]]
    ∧ ((runV1 5 [.issue true "42" "eth_sign"
        (some [.vStr "hello", .vStr "world"])]).sent.map
          (fun p => p.fields.map Prod.fst))
      = [["jsonrpc", "id", "method", "params"]] := by
  decide

/-- Claim C5 (amended): for every call with method "eth_sign" and params
["hello","world"] issued while embedded, the outbound envelope appended for
the transport has its protocol-version field named `jsonrpc` (not
`protocolVersion`) with value "2.0", `method` "eth_sign", `params`
["hello","world"], and a present string `id` equal to the identifier
generated for the call — in both versions.  (The identifier is unique only
insofar as the random generator avoids collisions; see C10.) -/
theorem claim_C5 (cfg : Nat) (s : PState) (id : String) :
    (stepV1 cfg s (.issue true id "eth_sign"
        (some [.vStr "hello", .vStr "world"]))).sent
      = s.sent ++ [⟨"2.0", id, "eth_sign", some [.vStr "hello", .vStr "world"]⟩]
    ∧ (stepV2 cfg s (.issue true id "eth_sign"
        (some [.vStr "hello", .vStr "world"]))).sent
      = s.sent ++ [⟨"2.0", id, "eth_sign", some [.vStr "hello", .vStr "world"]⟩]
    ∧ Payload.fields ⟨"2.0", id, "eth_sign", some [.vStr "hello", .vStr "world"]⟩
      = [("jsonrpc", .vStr "2.0"), ("id", .vStr id), ("method", .vStr "eth_sign"),
         ("params", .vArr [.vStr "hello", .vStr "world"])] :=
  ⟨rfl, rfl, rfl⟩

end IFrameProvider

namespace IFrameProvider

/-- Claim C8: the pending-call lookup (by identifier) and the notification
dispatch (by method name) are evaluated independently on a single message:
one message matching a pending call with a `result` or `error` member AND
carrying a `method` name both completes the pending call (appending its
outcome and deleting the entry) and appends the method's emitted events. -/
theorem claim_C8 (s : PState) (m : RawMsg) (c : Nat)
    (hf : m.falsy = false) (hj : m.jsonrpc = some "2.0")
    (hid : idPresent m.id = true)
    (hl : tblLookup (coerceId m.id) s.completers = some c)
    (hg : (errPresent m.error || m.result.isSome) = true) :
    (handleV1 s m).1.log = s.log ++ [(c, outcomeV1 m)]
    ∧ (handleV1 s m).1.events = s.events ++ (dispatchResult m).1
    ∧ (handleV1 s m).1.completers = tblDelete (coerceId m.id) s.completers := by
  rw [handleV1_accept hf hj, respondV1_complete hid hl hg]
  exact ⟨rfl, rfl, rfl⟩

theorem claim_C8_witness :
    ((handleV1 (runV1 5 [.issue true "3" "eth_call" none])
        { jsonrpc := some "2.0", id := .str "3", result := some (.vStr "0x0"),
          method := some "connect" }).1.log
      = (runV1 5 [.issue true "3" "eth_call" none]).log
        ++ [(0, .success (.vStr "0x0"))])
    ∧ ((handleV1 (runV1 5 [.issue true "3" "eth_call" none])
        { jsonrpc := some "2.0", id := .str "3", result := some (.vStr "0x0"),
          method := some "connect" }).1.events
      = (runV1 5 [.issue true "3" "eth_call" none]).events ++ [.connectEvent]) := by
  have h := claim_C8 (runV1 5 [.issue true "3" "eth_call" none])
    { jsonrpc := some "2.0", id := .str "3", result := some (.vStr "0x0"),
      method := some "connect" } 0 rfl rfl rfl (by decide) rfl
  exact ⟨h.1, h.2.1⟩

theorem outcomeRel_refl (o : Outcome) : outcomeRel o o := by
  cases o with
  | success v => exact rfl
  | failure e => exact trivial

theorem logRel_refl (l : List (Nat × Outcome)) : logRel l l :=
  List.forall₂_same.mpr (fun a _ => ⟨rfl, outcomeRel_refl a.2⟩)

theorem logRel_append {l1 l2 l1' l2' : List (Nat × Outcome)}
    (h : logRel l1 l2) (h' : logRel l1' l2') : logRel (l1 ++ l1') (l2 ++ l2') :=
  List.rel_append h h'

theorem logRel_single {c : Nat} {o1 o2 : Outcome} (h : outcomeRel o1 o2) :
    logRel [(c, o1)] [(c, o2)] :=
  List.Forall₂.cons ⟨rfl, h⟩ List.Forall₂.nil

theorem simR_issue {s1 s2 : PState} (h : SimR s1 s2) (emb : Bool)
    (id mtd : String) (ps : Option (List JsonValue)) :
    SimR (issueStep s1 emb id mtd ps) (issueStep s2 emb id mtd ps) := by
  cases emb with
  | true =>
    refine ⟨?_, ?_, ?_, ?_, h.eeq, h.lrel⟩
    · show tblInsert id s1.nextCall s1.completers = tblInsert id s2.nextCall s2.completers
      rw [h.ceq, h.neq]
    · show s1.timers ++ [id] = s2.timers ++ [id]
      rw [h.teq]
    · show s1.nextCall + 1 = s2.nextCall + 1
      rw [h.neq]
    · show s1.sent ++ _ = s2.sent ++ _
      rw [h.seq]
  | false =>
    refine ⟨h.ceq, h.teq, ?_, h.seq, h.eeq, ?_⟩
    · show s1.nextCall + 1 = s2.nextCall + 1
      rw [h.neq]
    · show logRel (s1.log ++ [(s1.nextCall, .failure notEmbeddedErr)])
        (s2.log ++ [(s2.nextCall, .failure notEmbeddedErr)])
      rw [h.neq]
      exact logRel_append h.lrel (logRel_single trivial)

theorem simR_fire {s1 s2 : PState} (h : SimR s1 s2) (cfg : Nat) (id : String) :
    SimR (fireV1 cfg s1 id) (fireV2 cfg s2 id) := by
  unfold fireV1 fireV2
  cases hl : tblLookup id ({ s1 with timers := s1.timers.erase id } : PState).completers with
  | some c =>
    have hl2 : tblLookup id ({ s2 with timers := s2.timers.erase id } : PState).completers
        = some c := by
      show tblLookup id s2.completers = some c
      rw [← h.ceq]
      exact hl
    simp only [hl, hl2]
    refine ⟨?_, ?_, h.neq, h.seq, h.eeq, ?_⟩
    · show tblDelete id s1.completers = tblDelete id s2.completers
      rw [h.ceq]
    · show s1.timers.erase id = s2.timers.erase id
      rw [h.teq]
    · show logRel (s1.log ++ _) (s2.log ++ _)
      exact logRel_append h.lrel (logRel_single trivial)
  | none =>
    have hl2 : tblLookup id ({ s2 with timers := s2.timers.erase id } : PState).completers
        = none := by
      show tblLookup id s2.completers = none
      rw [← h.ceq]
      exact hl
    simp only [hl, hl2]
    refine ⟨h.ceq, ?_, h.neq, h.seq, h.eeq, h.lrel⟩
    show s1.timers.erase id = s2.timers.erase id
    rw [h.teq]

theorem simR_respond {s1 s2 : PState} (h : SimR s1 s2) (m : RawMsg)
    (hne : m.error ≠ ErrField.nullish) :
    SimR (respondV1 s1 m) (respondV2 s2 m).1 := by
  unfold respondV1 respondV2
  by_cases hid : idPresent m.id
  · rw [if_pos hid, if_pos hid]
    cases hl : tblLookup (coerceId m.id) s1.completers with
    | some c =>
      have hl2 : tblLookup (coerceId m.id) s2.completers = some c := by
        rw [← h.ceq]
        exact hl
      simp only [hl, hl2]
      cases he : m.error with
      | nullish => exact absurd he hne
      | obj e =>
        have hg : (errPresent m.error || m.result.isSome) = true := by
          rw [he]
          simp [errPresent]
        simp only [he, hg, if_true]
        refine ⟨?_, h.teq, h.neq, h.seq, h.eeq, ?_⟩
        · show tblDelete (coerceId m.id) s1.completers
            = tblDelete (coerceId m.id) s2.completers
          rw [h.ceq]
        · show logRel (s1.log ++ [(c, outcomeV1 m)]) (s2.log ++ _)
          refine logRel_append h.lrel (logRel_single ?_)
          unfold outcomeV1
          rw [he]
          exact trivial
      | absent =>
        cases hr : m.result with
        | some v =>
          have hg : (errPresent m.error || m.result.isSome) = true := by
            rw [he, hr]
            simp [errPresent]
          simp only [he, hr, hg, if_true]
          refine ⟨?_, h.teq, h.neq, h.seq, h.eeq, ?_⟩
          · show tblDelete (coerceId m.id) s1.completers
              = tblDelete (coerceId m.id) s2.completers
            rw [h.ceq]
          · show logRel (s1.log ++ [(c, outcomeV1 m)]) (s2.log ++ [(c, .success v)])
            refine logRel_append h.lrel (logRel_single ?_)
            unfold outcomeRel outcomeV1
            rw [he, hr]
        | none =>
          have hg : (errPresent m.error || m.result.isSome) = false := by
            rw [he, hr]
            simp [errPresent]
          simp only [he, hr, hg, Bool.false_eq_true, if_false]
          refine ⟨?_, h.teq, h.neq, h.seq, h.eeq, h.lrel⟩
          show tblDelete (coerceId m.id) s1.completers
            = tblDelete (coerceId m.id) s2.completers
          rw [h.ceq]
    | none =>
      have hl2 : tblLookup (coerceId m.id) s2.completers = none := by
        rw [← h.ceq]
        exact hl
      simp only [hl, hl2]
      exact h
  · rw [if_neg hid, if_neg hid]
    exact h

theorem simR_handle {s1 s2 : PState} (h : SimR s1 s2) (m : RawMsg)
    (hne : m.error ≠ ErrField.nullish) :
    SimR (handleV1 s1 m).1 (handleV2 s2 m).1 := by
  have hrf : (respondV2 s2 m).2 = false := by
    rw [respondV2_snd]
    unfold respThrowsV2
    have hb : (m.error == ErrField.nullish) = false := by
      simp [hne]
    rw [hb]
    simp
  unfold handleV1 handleV2
  by_cases hf : m.falsy
  · rw [if_pos hf, if_pos hf]
    exact h
  · rw [if_neg hf, if_neg hf]
    by_cases hj : m.jsonrpc ≠ some "2.0"
    · rw [if_pos hj, if_pos hj]
      exact h
    · rw [if_neg hj, if_neg hj]
      simp only [hrf, Bool.false_eq_true, if_false]
      have hr := simR_respond h m hne
      refine ⟨hr.ceq, hr.teq, hr.neq, hr.seq, ?_, hr.lrel⟩
      show (respondV1 s1 m).events ++ _ = (respondV2 s2 m).1.events ++ _
      rw [hr.eeq]

theorem simR_step (cfg : Nat) {s1 s2 : PState} (h : SimR s1 s2) (e : Event)
    (hne : eventNoNullishErr e = true) :
    SimR (stepV1 cfg s1 e) (stepV2 cfg s2 e) := by
  cases e with
  | issue emb id mtd ps => exact simR_issue h emb id mtd ps
  | recv m =>
    have hne2 : m.error ≠ ErrField.nullish := by
      unfold eventNoNullishErr at hne
      simpa using hne
    exact simR_handle h m hne2
  | fire id => exact simR_fire h cfg id

theorem simR_runFrom (cfg : Nat) :
    ∀ (evts : List Event) (s1 s2 : PState), SimR s1 s2 →
      evts.all eventNoNullishErr = true →
      SimR (runFromV1 cfg s1 evts) (runFromV2 cfg s2 evts) := by
  intro evts
  induction evts with
  | nil =>
    intro s1 s2 h _
    exact h
  | cons e rest ih =>
    intro s1 s2 h hne
    rw [List.all_cons, Bool.and_eq_true] at hne
    exact ih _ _ (simR_step cfg h e hne.1) hne.2

theorem simR_run (cfg : Nat) (evts : List Event)
    (hne : evts.all eventNoNullishErr = true) :
    SimR (runV1 cfg evts) (runV2 cfg evts) :=
  simR_runFrom cfg evts initState initState
    ⟨rfl, rfl, rfl, rfl, rfl, logRel_refl _⟩ hne

end IFrameProvider

namespace IFrameProvider

/-- Claim C9, counterexample to the claim as stated: the two
implementations are not behaviorally equivalent at the public interface.
First divergence (rejection values): one call issued with identifier "9",
then a matching response carrying an error object with `code: -32000`,
`reason: "Unauthorized"`, rejects with an `RpcError` exposing code and
reason in V1 and with a plain `Error` with empty message in V2.  Second
divergence (tables and completion order): a matching response whose
`error` property is present but null/undefined makes V1 complete the call
(surfacing the `TypeError` its `send` raises) and delete the entry, while
V2 throws before its reject and delete, leaving the entry pending and the
call uncompleted. -/
theorem claim_C9_counterexample :
    (runV1 5 [.issue true "9" "eth_accounts" none,
        .recv { jsonrpc := some "2.0", id := .str "9",
                error := .obj ⟨-32000, some "Unauthorized", none⟩ }]).log
      = [(0, .failure (.rpcError (-32000) (some "Unauthorized")))]
    ∧ (runV2 5 [.issue true "9" "eth_accounts" none,
        .recv { jsonrpc := some "2.0", id := .str "9",
                error := .obj ⟨-32000, some "Unauthorized", none⟩ }]).log
      = [(0, .failure (.plainError ""))]
    ∧ (runV1 5 [.issue true "9" "eth_accounts" none,
        .recv { jsonrpc := some "2.0", id := .str "9",
                error := .obj ⟨-32000, some "Unauthorized", none⟩ }]).log
      ≠ (runV2 5 [.issue true "9" "eth_accounts" none,
        .recv { jsonrpc := some "2.0", id := .str "9",
                error := .obj ⟨-32000, some "Unauthorized", none⟩ }]).log
    ∧ (runV1 5 [.issue true "9" "eth_accounts" none,
        .recv { jsonrpc := some "2.0", id := .str "9", error := .nullish }]).completers
      = []
    ∧ (runV1 5 [.issue true "9" "eth_accounts" none,
        .recv { jsonrpc := some "2.0", id := .str "9", error := .nullish }]).log
      = [(0, .failure .typeError)]
    ∧ (runV2 5 [.issue true "9" "eth_accounts" none,
        .recv { jsonrpc := some "2.0", id := .str "9", error := .nullish }]).completers
      = [("9", 0)]
    ∧ (runV2 5 [.issue true "9" "eth_accounts" none,
        .recv { jsonrpc := some "2.0", id := .str "9", error := .nullish }]).log
      = [] := by
  decide

/-- Claim C9 (amended): provided no inbound message carries a
present-but-null/undefined `error` property, the two implementations
maintain identical pending-call tables, armed timers, call numbering,
outbound envelopes, and emitted events, and they complete the same calls
in the same order with identical success values; they still differ in the
VALUES carried by rejections (V1 rejects error responses with an `RpcError`
exposing `code`/`reason` and quotes the identifier in its timeout message;
V2 rejects with a plain `Error` built from the error object's `message`
member and does not quote the identifier).  On a matching message with a
nullish `error` the versions genuinely diverge: V1 completes the call and
deletes the entry while V2 throws before its reject and delete, leaving
the entry pending. -/
theorem claim_C9 (cfg : Nat) (evts : List Event)
    (hne : evts.all eventNoNullishErr = true) :
    (runV1 cfg evts).completers = (runV2 cfg evts).completers
    ∧ (runV1 cfg evts).timers = (runV2 cfg evts).timers
    ∧ (runV1 cfg evts).nextCall = (runV2 cfg evts).nextCall
    ∧ (runV1 cfg evts).sent = (runV2 cfg evts).sent
    ∧ (runV1 cfg evts).events = (runV2 cfg evts).events
    ∧ logRel (runV1 cfg evts).log (runV2 cfg evts).log := by
  have h := simR_run cfg evts hne
  exact ⟨h.ceq, h.teq, h.neq, h.seq, h.eeq, h.lrel⟩

theorem claim_C9_witness :
    (runV1 5 [.issue true "9" "eth_accounts" none,
        .recv { jsonrpc := some "2.0", id := .str "9",
                error := .obj ⟨-32000, some "Unauthorized", none⟩ }]).completers
      = (runV2 5 [.issue true "9" "eth_accounts" none,
        .recv { jsonrpc := some "2.0", id := .str "9",
                error := .obj ⟨-32000, some "Unauthorized", none⟩ }]).completers
    ∧ logRel
        (runV1 5 [.issue true "9" "eth_accounts" none,
          .recv { jsonrpc := some "2.0", id := .str "9",
                  error := .obj ⟨-32000, some "Unauthorized", none⟩ }]).log
        (runV2 5 [.issue true "9" "eth_accounts" none,
          .recv { jsonrpc := some "2.0", id := .str "9",
                  error := .obj ⟨-32000, some "Unauthorized", none⟩ }]).log :=
  ⟨(claim_C9 5 [.issue true "9" "eth_accounts" none,
      .recv { jsonrpc := some "2.0", id := .str "9",
              error := .obj ⟨-32000, some "Unauthorized", none⟩ }] (by decide)).1,
   (claim_C9 5 [.issue true "9" "eth_accounts" none,
      .recv { jsonrpc := some "2.0", id := .str "9",
              error := .obj ⟨-32000, some "Unauthorized", none⟩ }] (by decide)).2.2.2.2.2⟩

theorem step_orphan (cfg : Nat) (e : Event) {s : PState} {c : Nat}
    (h1 : c < s.nextCall) (h2 : c ∉ s.completers.map Prod.snd)
    (h3 : countLog c s.log = 0) :
    c < (stepV1 cfg s e).nextCall
    ∧ c ∉ (stepV1 cfg s e).completers.map Prod.snd
    ∧ countLog c (stepV1 cfg s e).log = 0 := by
  cases e with
  | issue emb id mtd ps =>
    cases emb with
    | true =>
      refine ⟨by simp only [stepV1, issueStep, if_true]; omega, ?_, h3⟩
      simp only [stepV1, issueStep, if_true, tblInsert, List.map_cons,
        List.mem_cons]
      push_neg
      refine ⟨by omega, ?_⟩
      intro hmem
      rcases List.mem_map.mp hmem with ⟨p, hp, hpv⟩
      exact h2 (List.mem_map.mpr ⟨p, (mem_tblDelete.mp hp).1, hpv⟩)
    | false =>
      refine ⟨by simp only [stepV1, issueStep, Bool.false_eq_true, if_false]; omega,
        h2, ?_⟩
      simp only [stepV1, issueStep, Bool.false_eq_true, if_false]
      rw [countLog_append, h3, countLog_single_ne (by omega)]
  | recv m =>
    show c < (handleV1 s m).1.nextCall
      ∧ c ∉ (handleV1 s m).1.completers.map Prod.snd
      ∧ countLog c (handleV1 s m).1.log = 0
    unfold handleV1
    by_cases hf : m.falsy
    · rw [if_pos hf]
      exact ⟨h1, h2, h3⟩
    · rw [if_neg hf]
      by_cases hj : m.jsonrpc ≠ some "2.0"
      · rw [if_pos hj]
        exact ⟨h1, h2, h3⟩
      · rw [if_neg hj]
        have hresp : c < (respondV1 s m).nextCall
            ∧ c ∉ (respondV1 s m).completers.map Prod.snd
            ∧ countLog c (respondV1 s m).log = 0 := by
          unfold respondV1
          by_cases hid : idPresent m.id
          · rw [if_pos hid]
            cases hl : tblLookup (coerceId m.id) s.completers with
            | some c0 =>
              have hc0 : c0 ∈ s.completers.map Prod.snd :=
                List.mem_map.mpr ⟨(coerceId m.id, c0), tblLookup_mem hl, rfl⟩
              have hcc0 : c ≠ c0 := fun he => h2 (he ▸ hc0)
              by_cases hg : (errPresent m.error || m.result.isSome) = true
              · simp only [hg, if_true]
                refine ⟨h1, ?_, ?_⟩
                · intro hmem
                  rcases List.mem_map.mp hmem with ⟨p, hp, hpv⟩
                  exact h2 (List.mem_map.mpr ⟨p, (mem_tblDelete.mp hp).1, hpv⟩)
                · rw [countLog_append, h3, countLog_single_ne hcc0]
              · simp only [hg, if_false]
                refine ⟨h1, ?_, h3⟩
                intro hmem
                rcases List.mem_map.mp hmem with ⟨p, hp, hpv⟩
                exact h2 (List.mem_map.mpr ⟨p, (mem_tblDelete.mp hp).1, hpv⟩)
            | none =>
              exact ⟨h1, h2, h3⟩
          · rw [if_neg hid]
            exact ⟨h1, h2, h3⟩
        exact hresp
  | fire id =>
    show c < (fireV1 cfg s id).nextCall
      ∧ c ∉ (fireV1 cfg s id).completers.map Prod.snd
      ∧ countLog c (fireV1 cfg s id).log = 0
    unfold fireV1
    cases hl : tblLookup id ({ s with timers := s.timers.erase id } : PState).completers with
    | some c0 =>
      have hc0 : c0 ∈ s.completers.map Prod.snd :=
        List.mem_map.mpr ⟨(id, c0), tblLookup_mem hl, rfl⟩
      have hcc0 : c ≠ c0 := fun hworld => h2 (hworld ▸ hc0)
      simp only [hl]
      refine ⟨h1, ?_, ?_⟩
      · intro hmem
        rcases List.mem_map.mp hmem with ⟨p, hp, hpv⟩
        exact h2 (List.mem_map.mpr ⟨p, (mem_tblDelete.mp hp).1, hpv⟩)
      · rw [countLog_append, h3, countLog_single_ne hcc0]
    | none =>
      simp only [hl]
      exact ⟨h1, h2, h3⟩

theorem never_completes (cfg : Nat) (evts : List Event) :
    ∀ (s : PState) (c : Nat), c < s.nextCall →
      c ∉ s.completers.map Prod.snd → countLog c s.log = 0 →
      countLog c (runFromV1 cfg s evts).log = 0 := by
  induction evts with
  | nil => exact fun s c _ _ h3 => h3
  | cons e rest ih =>
    intro s c h1 h2 h3
    rcases step_orphan cfg e h1 h2 h3 with ⟨h1', h2', h3'⟩
    exact ih (stepV1 cfg s e) c h1' h2' h3'

end IFrameProvider

namespace IFrameProvider

/-- Claim C10, counterexample to the claim as stated: in the collision
scenario the claim describes (two concurrently outstanding calls issued
with the same identifier "5", no response, both timers firing) the
completion log is exactly `[(1, timeout rejection)]`: the SECOND call is
completed exactly once — by the first call's timer — so exactly-once
completion is violated only for the first call, not "for both calls". -/
theorem claim_C10_counterexample :
    (runV1 5 [.issue true "5" "a" none, .issue true "5" "b" none,
        .fire "5", .fire "5"]).log
      = [(1, .failure (.plainError (timeoutMsgV1 "5" 5)))]
    ∧ countLog 1 (runV1 5 [.issue true "5" "a" none, .issue true "5" "b" none,
        .fire "5", .fire "5"]).log = 1
    ∧ countLog 0 (runV1 5 [.issue true "5" "a" none, .issue true "5" "b" none,
        .fire "5", .fire "5"]).log = 0 := by
  decide

/-- Claim C10 (amended): when the random identifier generator returns the
same identifier ("5") for two concurrently outstanding calls, registering
the second call (index 1) overwrites the first call's pending-call entry —
the table maps "5" to call 1 only; from then on NO continuation of the
trace (no inbound response, no timer) can ever invoke the first call's
resolve or reject (its completion count stays 0 forever), violating
exactly-once completion for the FIRST call, while the shared timeout path
rejects the SECOND call — which is thereby completed exactly once. -/
theorem claim_C10 :
    (runV1 5 [.issue true "5" "a" none, .issue true "5" "b" none]).completers
      = [("5", 1)]
    ∧ (∀ ext : List Event,
        countLog 0 (runFromV1 5
          (runV1 5 [.issue true "5" "a" none, .issue true "5" "b" none]) ext).log
          = 0)
    ∧ (runV1 5 [.issue true "5" "a" none, .issue true "5" "b" none,
        .fire "5", .fire "5"]).log
      = [(1, .failure (.plainError (timeoutMsgV1 "5" 5)))] := by
  refine ⟨by decide, ?_, by decide⟩
  intro ext
  exact never_completes 5 ext _ 0 (by decide) (by decide) (by decide)

end IFrameProvider
